import Mathlib

/-!
Verification of the PEP 440 version / specifier library.

The specifier component (operator predicates, wildcard matching, validation,
constraint-set evaluation) is translated directly from `specifier.go`.
The version component (the `Version` value, its parser, canonical string
form, and the comparator) is not part of the provided sources; those
definitions are modelled from the specification (sections 3, 4.1, 4.2 and 6)
and are marked as such in their doc comments.
-/

set_option maxHeartbeats 1000000

open Batteries

/-! ## Data model (Modelled from the spec, section 3) -/

/-- Modelled from the spec: pre-release phase, canonical short forms a, b, rc. -/
inductive PrePhase where
  | a
  | b
  | rc
deriving DecidableEq, Repr

/-- Modelled from the spec: a local-version segment is either a numeric
segment (compared as an integer) or a lower-cased alphanumeric string. -/
inductive LocalSeg where
  | num (n : Nat)
  | str (s : String)
deriving DecidableEq, Repr

/-- Modelled from the spec: the normalized Version value.  The transient
flag `preReleaseIncluded` is not part of identity or ordering. -/
structure Version where
  epoch : Nat := 0
  release : List Nat := []
  pre : Option (PrePhase × Nat) := none
  post : Option Nat := none
  dev : Option Nat := none
  «local» : List LocalSeg := []
  preReleaseIncluded : Bool := false
deriving DecidableEq, Repr

/-! ## Comparator (Modelled from the spec, section 4.2) -/

/-- Modelled from the spec: release sequences compare with the shorter one
right-padded with zeros; a missing element therefore compares as 0. -/
def relCmpNil : List Nat → Ordering
  | [] => .eq
  | b :: bs => (compare 0 b).then (relCmpNil bs)

/-- Modelled from the spec: element-wise integer comparison of release
sequences after implicit zero padding of the shorter one. -/
def relCmp : List Nat → List Nat → Ordering
  | [], bs => relCmpNil bs
  | a :: as, [] => (compare a 0).then (relCmp as [])
  | a :: as, b :: bs => (compare a b).then (relCmp as bs)

/-- Modelled from the spec: rank of a pre-release phase, a < b < rc. -/
def phaseRank : PrePhase → Nat
  | .a => 0
  | .b => 1
  | .rc => 2

/-- Modelled from the spec: the derived pre-release comparison key.  A bare
dev release (no pre, no post) sorts below every pre-release; absence of a
pre-release sorts above every pre-release. -/
inductive PreKey where
  | negInf
  | val (rank : Nat) (num : Nat)
  | posInf
deriving DecidableEq, Repr

/-- Modelled from the spec: key extraction for the pre/post/dev composite. -/
def preKey (v : Version) : PreKey :=
  if v.pre.isNone && v.post.isNone && v.dev.isSome then .negInf
  else
    match v.pre with
    | none => .posInf
    | some pn => .val (phaseRank pn.1) pn.2

/-- Modelled from the spec: comparison of pre-release keys. -/
def preCmp : PreKey → PreKey → Ordering
  | .negInf, .negInf => .eq
  | .negInf, _ => .lt
  | _, .negInf => .gt
  | .val r₁ n₁, .val r₂ n₂ => (compare r₁ r₂).then (compare n₁ n₂)
  | .val _ _, .posInf => .lt
  | .posInf, .val _ _ => .gt
  | .posInf, .posInf => .eq

/-- Modelled from the spec: a missing post-release sorts below any present
post-release number. -/
def postCmp : Option Nat → Option Nat → Ordering
  | none, none => .eq
  | none, some _ => .lt
  | some _, none => .gt
  | some a, some b => compare a b

/-- Modelled from the spec: a missing dev-release sorts above any present
dev-release number. -/
def devCmp : Option Nat → Option Nat → Ordering
  | none, none => .eq
  | none, some _ => .gt
  | some _, none => .lt
  | some a, some b => compare a b

/-- Generic lexicographic comparison of two lists; a strict prefix of the
other list sorts lower. -/
def lexCmp (cmp : α → α → Ordering) : List α → List α → Ordering
  | [], [] => .eq
  | [], _ :: _ => .lt
  | _ :: _, [] => .gt
  | a :: as, b :: bs => (cmp a b).then (lexCmp cmp as bs)

/-- Character comparison by code point. -/
def charCmp (c d : Char) : Ordering := compare c.toNat d.toNat

/-- Lexicographic string comparison by character code points. -/
def strCmp (s t : String) : Ordering := lexCmp charCmp s.data t.data

/-- Modelled from the spec: numeric local segments compare numerically and
sort above alphanumeric segments at the same position. -/
def segCmp : LocalSeg → LocalSeg → Ordering
  | .num a, .num b => compare a b
  | .num _, .str _ => .gt
  | .str _, .num _ => .lt
  | .str a, .str b => strCmp a b

/-- Modelled from the spec: local-version sequences compare segment by
segment; an absent local version (empty sequence) sorts below a present
one, and a strict prefix sorts lower. -/
def localCmp : List LocalSeg → List LocalSeg → Ordering := lexCmp segCmp

/-- Modelled from the spec: the public (local-ignoring) part of the
comparison key, in priority order epoch, release, pre, post, dev. -/
def cmpPub : Version → Version → Ordering :=
  compareLex (Ordering.byKey Version.epoch compare)
    (compareLex (Ordering.byKey Version.release relCmp)
      (compareLex (Ordering.byKey preKey preCmp)
        (compareLex (Ordering.byKey Version.post postCmp)
          (Ordering.byKey Version.dev devCmp))))

/-- Modelled from the spec: the full three-way comparison, the local
version being the least significant key. -/
def compareVersion : Version → Version → Ordering :=
  compareLex cmpPub (Ordering.byKey Version.«local» localCmp)

/-- Modelled from the spec: LessThan derives from the single comparator. -/
def Version.LessThan (v o : Version) : Bool := decide (compareVersion v o = .lt)

/-- Modelled from the spec: GreaterThan derives from the single comparator. -/
def Version.GreaterThan (v o : Version) : Bool := decide (compareVersion v o = .gt)

/-- Modelled from the spec: LessThanOrEqual derives from the single comparator. -/
def Version.LessThanOrEqual (v o : Version) : Bool := decide (compareVersion v o ≠ .gt)

/-- Modelled from the spec: GreaterThanOrEqual derives from the single comparator. -/
def Version.GreaterThanOrEqual (v o : Version) : Bool := decide (compareVersion v o ≠ .lt)

/-- Modelled from the spec: value equality is comparator equality. -/
def Version.Equal (v o : Version) : Bool := decide (compareVersion v o = .eq)

/-- Modelled from the spec: a version counts as a pre-release when it has a
pre-release or dev-release segment, unless the transient flag marks it as
acceptable for the current Check call. -/
def Version.IsPreRelease (v : Version) : Bool :=
  !v.preReleaseIncluded && (v.pre.isSome || v.dev.isSome)

/-- Modelled from the spec: a version is a post-release when the post
segment is present. -/
def Version.IsPostRelease (v : Version) : Bool := v.post.isSome

/-- Modelled from the spec: re-parsing the canonical public string
(`MustParse(v.Public())`) yields the same value with the local segment and
the transient flag cleared. -/
def public (v : Version) : Version := { v with «local» := [], preReleaseIncluded := false }

/-- Modelled from the spec: the value with only the local segment removed,
used where `Public()` is rendered as a string. -/
def stripLocal (v : Version) : Version := { v with «local» := [] }

/-- Modelled from the spec: `MustParse(v.BaseVersion())` — the base version
keeps epoch and release and drops every optional segment.  The spec's
parenthetical in section 4.4 says release plus pre-release, but the
repository's own tests (for example `2.0a1` not matching `<2`) pin the
base version to epoch and release only, as in the upstream packaging
library; the tests are followed here. -/
def base (v : Version) : Version :=
  { epoch := v.epoch, release := v.release }

/-! ## Canonical string form (Modelled from the spec, section 6) -/

/-- Decimal digit character for a value below ten. -/
def digitChar (n : Nat) : Char := Char.ofNat (48 + n)

/-- Decimal digits of a number, with explicit fuel for structural recursion. -/
def natDigits : Nat → Nat → List Char
  | 0, _ => []
  | fuel + 1, n => if n < 10 then [digitChar n] else natDigits fuel (n / 10) ++ [digitChar (n % 10)]

/-- Decimal representation of a natural number. -/
def natRepr (n : Nat) : String := String.mk (natDigits (n + 1) n)

/-- Join character lists with a separator character. -/
def joinChars (sep : Char) : List (List Char) → List Char
  | [] => []
  | [g] => g
  | g :: gs => g ++ sep :: joinChars sep gs

/-- Canonical spelling of a pre-release phase. -/
def phaseStr : PrePhase → String
  | .a => "a"
  | .b => "b"
  | .rc => "rc"

/-- Canonical spelling of a local segment. -/
def segStr : LocalSeg → String
  | .num n => natRepr n
  | .str s => s

/-- Modelled from the spec: the canonical string form
`epoch!release[{a|b|rc}N][.postN][.devN][+local]`, epoch omitted when 0 and
each optional segment omitted when absent. -/
def verString (v : Version) : String :=
  String.mk (
    (if v.epoch ≠ 0 then (natRepr v.epoch).data ++ ['!'] else []) ++
    joinChars '.' (v.release.map (fun n => (natRepr n).data)) ++
    (match v.pre with
     | some pn => (phaseStr pn.1).data ++ (natRepr pn.2).data
     | none => []) ++
    (match v.post with
     | some n => (".post").data ++ (natRepr n).data
     | none => []) ++
    (match v.dev with
     | some n => (".dev").data ++ (natRepr n).data
     | none => []) ++
    (match v.«local» with
     | [] => []
     | l => '+' :: joinChars '.' (l.map (fun s => (segStr s).data))))

/-- Modelled from the spec: `Version.Public()` renders the canonical string
without the local segment. -/
def Version.Public (v : Version) : String := verString (stripLocal v)

/-! ## Parser (Modelled from the spec, section 4.1) -/

/-- ASCII lower-casing of a character. -/
def lowerCh (c : Char) : Char :=
  if 'A' ≤ c && c ≤ 'Z' then Char.ofNat (c.toNat + 32) else c

/-- Whitespace recognised when trimming the input. -/
def isSpaceCh (c : Char) : Bool :=
  c == ' ' || c == '\t' || c == '\n' || c == '\r' || c == '\x0b' || c == '\x0c'

/-- Value of a list of decimal digits. -/
def digitsToNat (cs : List Char) : Nat := cs.foldl (fun a c => a * 10 + (c.toNat - 48)) 0

/-- Segment separators accepted between version parts. -/
def isSepCh (c : Char) : Bool := c == '.' || c == '-' || c == '_'

/-- Characters allowed inside a (lower-cased) local segment. -/
def isLowerAlnumCh (c : Char) : Bool := c.isDigit || ('a' ≤ c && c ≤ 'z')

/-- Split a character list on a separator character; mirrors Go
`strings.Split`, so the empty list yields one empty group. -/
def chSplit (sep : Char) : List Char → List (List Char)
  | [] => [[]]
  | c :: cs =>
    if c = sep then [] :: chSplit sep cs
    else
      match chSplit sep cs with
      | [] => [[c]]
      | g :: gs => (c :: g) :: gs

/-- Match one of the given tag spellings at the head of the input. -/
def matchTag (tags : List (List Char × α)) (s : List Char) : Option (α × List Char) :=
  match tags with
  | [] => none
  | (t, v) :: rest => if t.isPrefixOf s then some (v, s.drop t.length) else matchTag rest s

/-- Match a tag spelling, optionally preceded by one separator; the
separator is consumed only when a tag follows it. -/
def matchTagSep (tags : List (List Char × α)) (s : List Char) : Option (α × List Char) :=
  match matchTag tags s with
  | some r => some r
  | none =>
    match s with
    | c :: cs => if isSepCh c then matchTag tags cs else none
    | [] => none

/-- Modelled from the spec: the number after a phase or tag spelling,
optionally preceded by one separator; absent numbers default to 0. -/
def takeNum (s : List Char) : Nat × List Char :=
  let ds := s.takeWhile Char.isDigit
  if ds.isEmpty then
    match s with
    | c :: cs =>
      if isSepCh c then
        let ds2 := cs.takeWhile Char.isDigit
        if ds2.isEmpty then (0, s) else (digitsToNat ds2, cs.drop ds2.length)
      else (0, s)
    | [] => (0, s)
  else (digitsToNat ds, s.drop ds.length)

/-- Modelled from the spec: accepted pre-release spellings and their
canonical phases (alpha folds to a, beta to b, c to rc). -/
def preTags : List (List Char × PrePhase) :=
  [("alpha".data, .a), ("beta".data, .b), ("rc".data, .rc),
   ("a".data, .a), ("b".data, .b), ("c".data, .rc)]

/-- Modelled from the spec: accepted post-release spellings. -/
def postTags : List (List Char × Unit) := [("post".data, ()), ("rev".data, ()), ("r".data, ())]

/-- Modelled from the spec: the dev-release spelling. -/
def devTags : List (List Char × Unit) := [("dev".data, ())]

/-- Modelled from the spec: the local version after the plus sign, split on
separators, each segment non-empty alphanumeric; numeric segments become
integer segments. -/
def parseLocalSegs (s : List Char) : Option (List LocalSeg) :=
  let t := s.map (fun c => if c == '-' || c == '_' then '.' else c)
  let segs := chSplit '.' t
  if segs.any (fun g => g.isEmpty || g.any (fun c => !isLowerAlnumCh c)) then none
  else some (segs.map (fun g => if g.all Char.isDigit then .num (digitsToNat g) else .str (String.mk g)))

/-- Modelled from the spec: the full PEP 440 grammar over a character list;
whitespace is trimmed, the input lower-cased, an optional leading v
dropped, and the whole input must be consumed. -/
def parseVersionCh (cs0 : List Char) : Option Version :=
  let cs1 := ((cs0.dropWhile isSpaceCh).reverse.dropWhile isSpaceCh).reverse
  let cs2 := cs1.map lowerCh
  let cs3 :=
    match cs2 with
    | 'v' :: rest => rest
    | _ => cs2
  let eds := cs3.takeWhile Char.isDigit
  let er := cs3.drop eds.length
  let (epoch, cs4) :=
    match er with
    | '!' :: r => if eds.isEmpty then (0, cs3) else (digitsToNat eds, r)
    | _ => (0, cs3)
  let relRaw := cs4.takeWhile (fun c => c.isDigit || c == '.')
  let restRaw := cs4.drop relRaw.length
  let (rel, rest0) :=
    if relRaw.getLast? = some '.' then (relRaw.dropLast, '.' :: restRaw) else (relRaw, restRaw)
  if rel.isEmpty then none
  else
    let groups := chSplit '.' rel
    if groups.any List.isEmpty then none
    else
      let release := groups.map digitsToNat
      let (pre, rest1) :=
        match matchTagSep preTags rest0 with
        | some (ph, r) =>
          let nr := takeNum r
          (some (ph, nr.1), nr.2)
        | none => ((none : Option (PrePhase × Nat)), rest0)
      let (post, rest2) :=
        match matchTagSep postTags rest1 with
        | some (_, r) =>
          let nr := takeNum r
          (some nr.1, nr.2)
        | none =>
          match rest1 with
          | '-' :: r =>
            let ds := r.takeWhile Char.isDigit
            if ds.isEmpty then ((none : Option Nat), rest1)
            else (some (digitsToNat ds), r.drop ds.length)
          | _ => ((none : Option Nat), rest1)
      let (dev, rest3) :=
        match matchTagSep devTags rest2 with
        | some (_, r) =>
          let nr := takeNum r
          (some nr.1, nr.2)
        | none => ((none : Option Nat), rest2)
      match rest3 with
      | [] => some { epoch := epoch, release := release, pre := pre, post := post, dev := dev }
      | '+' :: l =>
        if l.isEmpty then none
        else
          match parseLocalSegs l with
          | some segs =>
            some { epoch := epoch, release := release, pre := pre, post := post, dev := dev,
                   «local» := segs }
          | none => none
      | _ => none

/-- Modelled from the spec: `Parse` on a string. -/
def parseVersion (s : String) : Option Version := parseVersionCh s.data

/-- Modelled from the spec: `MustParse` aborts on invalid input; invalid
inputs are never reached through validated specifiers, and the default
value stands for the aborted state. -/
def MustParse (s : String) : Version := (parseVersion s).getD {}

/-! ## Specifier component, translated from `specifier.go` -/

/-- Go `strings.HasSuffix`. -/
def strEndsWith (s suffix : String) : Bool := suffix.data.isSuffixOf s.data

/-- Go `strings.HasPrefix`. -/
def strStartsWith (s p : String) : Bool := p.data.isPrefixOf s.data

/-- Go `strings.TrimSuffix`. -/
def trimSuffix (s suffix : String) : String :=
  if suffix.data.isSuffixOf s.data then String.mk (s.data.take (s.data.length - suffix.data.length))
  else s

/-- The regular expression `^([0-9]+)((?:a|b|c|rc)[0-9]+)$` from
`specifier.go`: when the token matches, it splits into its two groups. -/
def prefixTokenSplit (token : List Char) : List String :=
  let ds := token.takeWhile Char.isDigit
  let rest := token.drop ds.length
  let rcTail := ("rc".data).isPrefixOf rest
  let abcTail :=
    ("a".data).isPrefixOf rest || ("b".data).isPrefixOf rest || ("c".data).isPrefixOf rest
  let ok :=
    !ds.isEmpty &&
    ((rcTail && !(rest.drop 2).isEmpty && (rest.drop 2).all Char.isDigit) ||
     (!rcTail && abcTail && !(rest.drop 1).isEmpty && (rest.drop 1).all Char.isDigit))
  if ok then [String.mk ds, String.mk rest] else [String.mk token]

/-- `versionSplit` from `specifier.go`: split on dots and split a release
number glued to a pre-release tag into two tokens. -/
def versionSplit (version : String) : List String :=
  ((chSplit '.' version.data).map prefixTokenSplit).flatten

/-- `isDigist` from `specifier.go`: whether `strconv.Atoi` succeeds, that
is an optional sign followed by at least one digit. -/
def isDigist (s : String) : Bool :=
  let t :=
    match s.data with
    | '+' :: r => r
    | '-' :: r => r
    | r => r
  !t.isEmpty && t.all Char.isDigit

/-- `padVersion` from `specifier.go`.  Note: the source computes the rest
of the right sequence by slicing the LEFT sequence
(`rightRest := left[len(rightRelease):]`); this translation reproduces
that behaviour exactly. -/
def padVersion (left right : List String) : List String × List String :=
  let leftRelease := left.filter isDigist
  let rightRelease := right.filter isDigist
  let leftRest := left.drop leftRelease.length
  let rightRest := left.drop rightRelease.length
  let rightPadded := rightRelease ++ List.replicate (leftRelease.length - rightRelease.length) "0"
  let leftPadded := leftRelease ++ List.replicate (rightPadded.length - leftRelease.length) "0"
  (leftPadded ++ leftRest, rightPadded ++ rightRest)

/-- Follows the spec's words, for comparison with `padVersion`: each side's
non-numeric rest is taken from that same side. -/
def padVersionEachSide (left right : List String) : List String × List String :=
  let leftRelease := left.filter isDigist
  let rightRelease := right.filter isDigist
  let leftRest := left.drop leftRelease.length
  let rightRest := right.drop rightRelease.length
  let rightPadded := rightRelease ++ List.replicate (leftRelease.length - rightRelease.length) "0"
  let leftPadded := leftRelease ++ List.replicate (rightPadded.length - leftRelease.length) "0"
  (leftPadded ++ leftRest, rightPadded ++ rightRest)

/-- `specifierEqual` from `specifier.go`.  The unreachable abort of
`MustParse` on an unparseable operand is rendered as `false`; constructed
specifiers always carry parseable operands. -/
def specifierEqual (prospective : Version) (spec : String) (allowLocalVersion : Bool) : Bool :=
  if strEndsWith spec ".*" then
    let prosp := public prospective
    let splitSpec := versionSplit (trimSuffix spec ".*")
    let splitProspective0 := versionSplit (verString prosp)
    let splitProspective :=
      if splitProspective0.length > splitSpec.length then splitProspective0.take splitSpec.length
      else splitProspective0
    let padded := padVersion splitSpec splitProspective
    padded.1 == padded.2
  else
    match parseVersion spec with
    | none => false
    | some specVersion =>
      let prosp :=
        if !allowLocalVersion && specVersion.«local».isEmpty then public prospective
        else prospective
      Version.Equal specVersion prosp

/-- Follows the spec's words, for comparison with `specifierEqual`: the
same wildcard match but with the symmetric padding helper. -/
def specifierEqualEachSide (prospective : Version) (spec : String) (allowLocalVersion : Bool) : Bool :=
  if strEndsWith spec ".*" then
    let prosp := public prospective
    let splitSpec := versionSplit (trimSuffix spec ".*")
    let splitProspective0 := versionSplit (verString prosp)
    let splitProspective :=
      if splitProspective0.length > splitSpec.length then splitProspective0.take splitSpec.length
      else splitProspective0
    let padded := padVersionEachSide splitSpec splitProspective
    padded.1 == padded.2
  else
    specifierEqual prospective spec allowLocalVersion

/-- `specifierNotEqual` from `specifier.go`. -/
def specifierNotEqual (prospective : Version) (spec : String) (allowLocalVersion : Bool) : Bool :=
  !specifierEqual prospective spec allowLocalVersion

/-- `specifierLessThan` from `specifier.go`. -/
def specifierLessThan (prospective : Version) (spec : String) (allowLocalVersion : Bool) : Bool :=
  match parseVersion spec with
  | none => false
  | some s =>
    let p :=
      if !allowLocalVersion && !prospective.«local».isEmpty then public prospective
      else prospective
    if !(Version.LessThan p s) then false
    else if !(Version.IsPreRelease s) && Version.IsPreRelease p &&
        Version.Equal (base p) (base s) then false
    else true

/-- `specifierGreaterThan` from `specifier.go`; unlike the less-than
predicate it never strips the candidate's local segment before the
comparison. -/
def specifierGreaterThan (prospective : Version) (spec : String) (allowLocalVersion : Bool) : Bool :=
  match parseVersion spec with
  | none => false
  | some s =>
    if !(Version.GreaterThan prospective s) then false
    else if !(Version.IsPostRelease s) && Version.IsPostRelease prospective &&
        Version.Equal (base prospective) (base s) then false
    else if !allowLocalVersion && !prospective.«local».isEmpty &&
        Version.Equal (base prospective) (base s) then false
    else true

/-- `specifierArbitrary` from `specifier.go`: case-insensitive string
equality of the canonical form with the raw operand. -/
def specifierArbitrary (prospective : Version) (spec : String) (_ : Bool) : Bool :=
  (verString prospective).data.map lowerCh == spec.data.map lowerCh

/-- `specifierLessThanEqual` from `specifier.go`. -/
def specifierLessThanEqual (prospective : Version) (spec : String) (allowLocalVersion : Bool) : Bool :=
  let p := if !allowLocalVersion then public prospective else prospective
  match parseVersion spec with
  | none => false
  | some s => Version.LessThanOrEqual p s

/-- `specifierGreaterThanEqual` from `specifier.go`. -/
def specifierGreaterThanEqual (prospective : Version) (spec : String) (allowLocalVersion : Bool) : Bool :=
  let p := if !allowLocalVersion then public prospective else prospective
  match parseVersion spec with
  | none => false
  | some s => Version.GreaterThanOrEqual p s

/-- `specifierCompatible` from `specifier.go`: delegation to the
greater-equal predicate on the operand and the equality predicate on the
wildcard prefix built from the operand's public form. -/
def specifierCompatible (prospective : Version) (spec : String) (allowLocalVersion : Bool) : Bool :=
  match parseVersion spec with
  | none => false
  | some specVersion =>
    let publicSpec := Version.Public specVersion
    let prefixElements :=
      (versionSplit publicSpec).takeWhile
        (fun s => !(strStartsWith s "post" || strStartsWith s "dev"))
    let pfx := String.mk (joinChars '.' (prefixElements.dropLast.map String.data)) ++ ".*"
    specifierGreaterThanEqual prospective spec allowLocalVersion &&
      specifierEqual prospective pfx allowLocalVersion

/-! ## Constraint set, translated from `specifier.go` and `specifier_option.go` -/

/-- The configuration from `specifier_option.go`. -/
structure Conf where
  includePreRelease : Bool := false
  allowLocalVersion : Bool := false
deriving DecidableEq, Repr

/-- One specifier clause, from `specifier.go`. -/
structure Specifier where
  version : String
  operator : Version → String → Bool → Bool
  original : String
  allowLocalVersion : Bool

/-- The OR-of-AND constraint set, from `specifier.go`. -/
structure Specifiers where
  specifiers : List (List Specifier)
  conf : Conf

/-- `specifier.check` from `specifier.go`. -/
def Specifier.check (s : Specifier) (v : Version) : Bool :=
  s.operator v s.version s.allowLocalVersion

/-- `andCheck` from `specifier.go`: every clause of the group must hold. -/
def andCheck (v : Version) (specifiers : List Specifier) : Bool :=
  specifiers.all (fun c => c.check v)

/-- `Specifiers.Check` from `specifier.go`: mark the candidate copy when
pre-releases are included, then accept when some OR group accepts. -/
def Specifiers.Check (ss : Specifiers) (v : Version) : Bool :=
  let v := if ss.conf.includePreRelease then { v with preReleaseIncluded := true } else v
  ss.specifiers.any (fun s => andCheck v s)

/-- Go call semantics of `Specifiers.Check`: the receiver and the version
are passed by value, so the flag assignment happens on a local copy; the
pair returned is the call result together with the caller's variable after
the call. -/
def CheckCall (ss : Specifiers) (caller : Version) : Bool × Version :=
  let l0 := caller
  let l1 := if ss.conf.includePreRelease then { l0 with preReleaseIncluded := true } else l0
  (ss.specifiers.any (fun s => andCheck l1 s), caller)

/-- `validate` from `specifier.go`. -/
def validate (operator version : String) (c : Conf) : Option String :=
  let hasWildcard := strEndsWith version ".*"
  let version := if hasWildcard then trimSuffix version ".*" else version
  match parseVersion version with
  | none => some "version parse error"
  | some v =>
    let allowLocal := c.allowLocalVersion
    if operator = "" || operator = "=" || operator = "==" || operator = "!=" then
      if hasWildcard && (v.dev.isSome || !v.«local».isEmpty) then
        some "wild card with dev or local version"
      else none
    else if operator = "~=" then
      if hasWildcard then some "a wild card is not allowed"
      else if v.release.length < 2 then some "at least two digits required"
      else if !v.«local».isEmpty && !allowLocal then some "local versions cannot be specified"
      else none
    else
      if hasWildcard then some "a wild card is not allowed"
      else if !v.«local».isEmpty && !allowLocal then some "local versions cannot be specified"
      else none

/-- The operator dispatch table from `specifier.go`. -/
def specifierOperators (op : String) : Option (Version → String → Bool → Bool) :=
  if op = "" || op = "=" || op = "==" then some specifierEqual
  else if op = "!=" then some specifierNotEqual
  else if op = ">" then some specifierGreaterThan
  else if op = "<" then some specifierLessThan
  else if op = ">=" then some specifierGreaterThanEqual
  else if op = "<=" then some specifierLessThanEqual
  else if op = "~=" then some specifierCompatible
  else if op = "===" then some specifierArbitrary
  else none

/-- `newSpecifier` from `specifier.go`, taking the clause already split by
the tokenizer into operator and operand; every operator except the
arbitrary one is validated. -/
def newSpecifier (operator version : String) (c : Conf) : Option Specifier :=
  match specifierOperators operator with
  | none => none
  | some f =>
    if operator ≠ "===" then
      match validate operator version c with
      | some _ => none
      | none => some ⟨version, f, operator ++ version, c.allowLocalVersion⟩
    else some ⟨version, f, operator ++ version, c.allowLocalVersion⟩

/-- Modelled from the spec (section 4.5): `NewSpecifiers` construction from
the tokenized clause list — the regex tokenizer of `specifier.go` splits
the requirement text into OR groups of (operator, operand) clauses; a
failing clause fails the whole construction. -/
def newSpecifiers (groups : List (List (String × String))) (c : Conf) : Option Specifiers :=
  match groups.mapM (fun g => g.mapM (fun cl => newSpecifier cl.1 cl.2 c)) with
  | none => none
  | some sss => some ⟨sss, c⟩

/-! ## Statements of spec properties used by the claims -/

/-- In-bounds conditions for the two slice expressions of `padVersion`: Go
`left[k:]` requires k to be at most the length of `left`, and both rests
are sliced from the left list. -/
def padVersionInBounds (left right : List String) : Prop :=
  (left.filter isDigist).length ≤ left.length ∧ (right.filter isDigist).length ≤ left.length

/-- The validation-failure enumeration of the claim, written from the
spec's rules: wildcard with dev or local under the (non)equality
operators, any wildcard under the ordered and compatible operators, a
compatible operand with fewer than two release components, a local operand
under the ordered and compatible operators without the local option, or an
operand that does not parse. -/
def specViolation (operator version : String) (c : Conf) : Bool :=
  let wc := strEndsWith version ".*"
  let core := if wc then trimSuffix version ".*" else version
  match parseVersion core with
  | none => true
  | some v =>
    ((operator = "" || operator = "=" || operator = "==" || operator = "!=") &&
      (wc && (v.dev.isSome || !v.«local».isEmpty))) ||
    ((operator = "~=" || operator = ">" || operator = "<" || operator = ">=" || operator = "<=") &&
      wc) ||
    (operator = "~=" && v.release.length < 2) ||
    ((operator = "~=" || operator = ">" || operator = "<" || operator = ">=" || operator = "<=") &&
      (!v.«local».isEmpty && !c.allowLocalVersion))

/-! ## Comparator laws -/

theorem natThen_eq_gt (a b c d : Nat) :
    ((compare a b).then (compare c d) = .gt) ↔ (b < a ∨ (a = b ∧ d < c)) := by
  rw [Ordering.then_eq_gt, Nat.compare_eq_gt, Nat.compare_eq_eq, Nat.compare_eq_gt]

theorem relCmpNil_swap : ∀ b, (relCmpNil b).swap = relCmp b []
  | [] => rfl
  | y :: ys => by
    simp only [relCmpNil, relCmp, Ordering.swap_then, relCmpNil_swap ys]
    rw [OrientedCmp.symm (α := Nat) 0 y]

theorem relCmp_swap : ∀ a b, (relCmp a b).swap = relCmp b a
  | [], b => relCmpNil_swap b
  | x :: xs, [] => by
    simp only [relCmp, Ordering.swap_then]
    rw [OrientedCmp.symm (α := Nat) x 0, ← relCmpNil_swap xs, Ordering.swap_swap]
    rfl
  | x :: xs, y :: ys => by
    simp only [relCmp, Ordering.swap_then, relCmp_swap xs ys]
    rw [OrientedCmp.symm (α := Nat) x y]

instance : OrientedCmp relCmp where
  symm a b := relCmp_swap a b

theorem relCmpNil_ne_gt : ∀ b, relCmpNil b ≠ .gt
  | [] => by simp [relCmpNil]
  | y :: ys => by
    simp only [relCmpNil, ne_eq, Ordering.then_eq_gt, not_or, not_and]
    refine ⟨fun h => by simp [Nat.compare_eq_gt] at h, fun _ => relCmpNil_ne_gt ys⟩

theorem relCmp_cons_nil_ne_gt {x : Nat} {xs : List Nat}
    (h : relCmp (x :: xs) [] ≠ .gt) : x = 0 ∧ relCmp xs [] ≠ .gt := by
  simp only [relCmp, ne_eq, Ordering.then_eq_gt, not_or, not_and] at h
  have hx : x = 0 := by
    rcases Nat.eq_zero_or_pos x with h0 | h0
    · exact h0
    · exact absurd (Nat.compare_eq_gt.2 h0) h.1
  exact ⟨hx, h.2 (by simp [hx, Nat.compare_eq_eq])⟩

theorem relCmp_le_trans : ∀ a b c, relCmp a b ≠ .gt → relCmp b c ≠ .gt → relCmp a c ≠ .gt := by
  intro a
  induction a with
  | nil => intro b c _ _; exact relCmpNil_ne_gt c
  | cons x xs ih =>
    intro b c hab hbc
    cases b with
    | nil =>
      obtain ⟨hx, hxs⟩ := relCmp_cons_nil_ne_gt hab
      cases c with
      | nil => exact hab
      | cons z zs =>
        simp only [relCmp, ne_eq, Ordering.then_eq_gt, not_or, not_and]
        subst hx
        refine ⟨fun h => by simp [Nat.compare_eq_gt] at h, fun _ => ?_⟩
        exact ih [] zs hxs (relCmpNil_ne_gt zs)
    | cons y ys =>
      simp only [relCmp, ne_eq, Ordering.then_eq_gt, not_or, not_and] at hab
      cases c with
      | nil =>
        obtain ⟨hy, hys⟩ := relCmp_cons_nil_ne_gt hbc
        simp only [relCmp, ne_eq, Ordering.then_eq_gt, not_or, not_and]
        have hx0 : x = 0 := by
          subst hy
          have := hab.1
          rcases Nat.eq_zero_or_pos x with h0 | h0
          · exact h0
          · exact absurd (Nat.compare_eq_gt.2 h0) this
        constructor
        · simp [hx0, Nat.compare_eq_gt]
        · intro _
          have hxy : compare x y = .eq := by simp [hx0, hy, Nat.compare_eq_eq]
          exact ih ys [] (hab.2 hxy) hys
      | cons z zs =>
        simp only [relCmp, ne_eq, Ordering.then_eq_gt, not_or, not_and] at hbc ⊢
        have hxy : ¬ y < x := fun h => hab.1 (Nat.compare_eq_gt.2 h)
        have hyz : ¬ z < y := fun h => hbc.1 (Nat.compare_eq_gt.2 h)
        refine ⟨fun h => by rw [Nat.compare_eq_gt] at h; omega, fun he => ?_⟩
        rw [Nat.compare_eq_eq] at he
        have hx : x = y := by omega
        have hy : y = z := by omega
        exact ih ys zs (hab.2 (by simp [hx, Nat.compare_eq_eq]))
          (hbc.2 (by simp [hy, Nat.compare_eq_eq]))

instance : TransCmp relCmp where
  le_trans h₁ h₂ := relCmp_le_trans _ _ _ h₁ h₂

instance : OrientedCmp charCmp where
  symm c d := OrientedCmp.symm (α := Nat) c.toNat d.toNat

instance : TransCmp charCmp where
  le_trans h₁ h₂ := TransCmp.le_trans (α := Nat) h₁ h₂

theorem lexCmp_swap (cmp : α → α → Ordering) [OrientedCmp cmp] :
    ∀ a b, (lexCmp cmp a b).swap = lexCmp cmp b a := by
  intro a
  induction a with
  | nil => intro b; cases b <;> rfl
  | cons x xs ih =>
    intro b
    cases b with
    | nil => rfl
    | cons y ys =>
      simp only [lexCmp, Ordering.swap_then, ih ys]
      rw [@OrientedCmp.symm _ cmp _ x y]

instance (cmp : α → α → Ordering) [OrientedCmp cmp] : OrientedCmp (lexCmp cmp) where
  symm a b := lexCmp_swap cmp a b

theorem lexCmp_le_trans (cmp : α → α → Ordering) [TransCmp cmp] :
    ∀ a b c, lexCmp cmp a b ≠ .gt → lexCmp cmp b c ≠ .gt → lexCmp cmp a c ≠ .gt := by
  intro a
  induction a with
  | nil =>
    intro b c _ _
    cases c <;> simp [lexCmp]
  | cons x xs ih =>
    intro b c hab hbc
    cases b with
    | nil => simp [lexCmp] at hab
    | cons y ys =>
      cases c with
      | nil => simp [lexCmp] at hbc
      | cons z zs =>
        simp only [lexCmp, ne_eq, Ordering.then_eq_gt, not_or, not_and] at hab hbc ⊢
        refine ⟨TransCmp.le_trans hab.1 hbc.1, fun e => ?_⟩
        match exy : cmp x y with
        | .gt => exact absurd exy hab.1
        | .eq =>
          exact ih ys zs (hab.2 exy) (hbc.2 (TransCmp.cmp_congr_left exy ▸ e))
        | .lt =>
          exact absurd ((@OrientedCmp.cmp_eq_gt _ cmp _ _ _).2
            (TransCmp.cmp_congr_left e ▸ exy)) hbc.1

instance (cmp : α → α → Ordering) [TransCmp cmp] : TransCmp (lexCmp cmp) where
  le_trans h₁ h₂ := lexCmp_le_trans cmp _ _ _ h₁ h₂

instance : OrientedCmp strCmp where
  symm s t := lexCmp_swap charCmp s.data t.data

instance : TransCmp strCmp where
  le_trans h₁ h₂ := lexCmp_le_trans charCmp _ _ _ h₁ h₂

theorem preCmp_swap : ∀ a b, (preCmp a b).swap = preCmp b a := by
  intro a b
  cases a <;> cases b <;>
    first
    | rfl
    | (simp only [preCmp, Ordering.swap_then]
       rw [OrientedCmp.symm (α := Nat), OrientedCmp.symm (α := Nat)])

instance : OrientedCmp preCmp where
  symm a b := preCmp_swap a b

theorem preCmp_le_trans :
    ∀ a b c, preCmp a b ≠ .gt → preCmp b c ≠ .gt → preCmp a c ≠ .gt := by
  intro a b c hab hbc
  cases a <;> cases b <;> cases c <;> simp_all only [preCmp, ne_eq] <;> try simp_all
  rw [natThen_eq_gt] at hab hbc ⊢
  omega

instance : TransCmp preCmp where
  le_trans h₁ h₂ := preCmp_le_trans _ _ _ h₁ h₂

theorem postCmp_swap : ∀ a b, (postCmp a b).swap = postCmp b a := by
  intro a b
  cases a <;> cases b <;>
    first
    | rfl
    | (simp only [postCmp]; exact OrientedCmp.symm (α := Nat) _ _)

instance : OrientedCmp postCmp where
  symm a b := postCmp_swap a b

theorem postCmp_le_trans :
    ∀ a b c, postCmp a b ≠ .gt → postCmp b c ≠ .gt → postCmp a c ≠ .gt := by
  intro a b c hab hbc
  cases a <;> cases b <;> cases c <;> simp_all only [postCmp, ne_eq] <;> try simp_all
  rw [Nat.compare_eq_gt] at hab hbc ⊢
  omega

instance : TransCmp postCmp where
  le_trans h₁ h₂ := postCmp_le_trans _ _ _ h₁ h₂

theorem devCmp_swap : ∀ a b, (devCmp a b).swap = devCmp b a := by
  intro a b
  cases a <;> cases b <;>
    first
    | rfl
    | (simp only [devCmp]; exact OrientedCmp.symm (α := Nat) _ _)

instance : OrientedCmp devCmp where
  symm a b := devCmp_swap a b

theorem devCmp_le_trans :
    ∀ a b c, devCmp a b ≠ .gt → devCmp b c ≠ .gt → devCmp a c ≠ .gt := by
  intro a b c hab hbc
  cases a <;> cases b <;> cases c <;> simp_all only [devCmp, ne_eq] <;> try simp_all
  rw [Nat.compare_eq_gt] at hab hbc ⊢
  omega

instance : TransCmp devCmp where
  le_trans h₁ h₂ := devCmp_le_trans _ _ _ h₁ h₂

theorem segCmp_swap : ∀ a b, (segCmp a b).swap = segCmp b a := by
  intro a b
  cases a <;> cases b <;>
    first
    | rfl
    | (simp only [segCmp]; exact OrientedCmp.symm (α := Nat) _ _)
    | (simp only [segCmp]; exact @OrientedCmp.symm _ strCmp _ _ _)

instance : OrientedCmp segCmp where
  symm a b := segCmp_swap a b

theorem segCmp_le_trans :
    ∀ a b c, segCmp a b ≠ .gt → segCmp b c ≠ .gt → segCmp a c ≠ .gt := by
  intro a b c hab hbc
  cases a <;> cases b <;> cases c <;> simp_all only [segCmp, ne_eq] <;> try simp_all
  · rw [Nat.compare_eq_gt] at hab hbc ⊢
    omega
  · exact TransCmp.le_trans hab hbc

instance : TransCmp segCmp where
  le_trans h₁ h₂ := segCmp_le_trans _ _ _ h₁ h₂

instance : OrientedCmp localCmp :=
  inferInstanceAs (OrientedCmp (lexCmp segCmp))

instance : TransCmp localCmp :=
  inferInstanceAs (TransCmp (lexCmp segCmp))

instance : OrientedCmp cmpPub := by
  unfold cmpPub
  infer_instance

instance : TransCmp cmpPub := by
  unfold cmpPub
  infer_instance

instance : OrientedCmp compareVersion := by
  unfold compareVersion
  infer_instance

instance : TransCmp compareVersion := by
  unfold compareVersion
  infer_instance

theorem then_eqRight (o : Ordering) : o.then .eq = o := by cases o <;> rfl

theorem charCmp_eq_iff (c d : Char) : charCmp c d = .eq ↔ c = d := by
  constructor
  · intro h
    rw [charCmp, Nat.compare_eq_eq] at h
    rw [← Char.ofNat_toNat c, ← Char.ofNat_toNat d, h]
  · rintro rfl
    rw [charCmp, Nat.compare_eq_eq]

theorem lexCmp_eq_iff (cmp : α → α → Ordering) (h : ∀ x y, cmp x y = .eq ↔ x = y) :
    ∀ a b, lexCmp cmp a b = .eq ↔ a = b := by
  intro a
  induction a with
  | nil => intro b; cases b <;> simp [lexCmp]
  | cons x xs ih =>
    intro b
    cases b with
    | nil => simp [lexCmp]
    | cons y ys =>
      simp only [lexCmp, Ordering.then_eq_eq, h, ih, List.cons.injEq]

theorem strCmp_eq_iff (s t : String) : strCmp s t = .eq ↔ s = t := by
  rw [strCmp, lexCmp_eq_iff charCmp charCmp_eq_iff]
  constructor
  · intro h
    cases s
    cases t
    exact congrArg String.mk h
  · rintro rfl
    rfl

theorem segCmp_eq_iff (a b : LocalSeg) : segCmp a b = .eq ↔ a = b := by
  cases a <;> cases b <;> simp [segCmp, Nat.compare_eq_eq, strCmp_eq_iff]

theorem localCmp_eq_iff (a b : List LocalSeg) : localCmp a b = .eq ↔ a = b :=
  lexCmp_eq_iff segCmp segCmp_eq_iff a b

/-! ## Facts about the modelled version operations -/

theorem cmpPub_public_left (v w : Version) : cmpPub (public v) w = cmpPub v w := rfl

theorem compareVersion_decompose (a b : Version) :
    compareVersion a b = (cmpPub a b).then (localCmp a.«local» b.«local») := rfl

theorem base_public (v : Version) : base (public v) = base v := rfl

theorem lessThan_public_of_operand_no_local (v w : Version) (hw : w.«local» = [])
    (h : Version.LessThan (public v) w = true) : Version.LessThan v w = true := by
  simp only [Version.LessThan, decide_eq_true_eq] at h ⊢
  rw [compareVersion_decompose, cmpPub_public_left] at h
  simp only [public, hw] at h
  rw [show localCmp [] [] = .eq from rfl, then_eqRight] at h
  rw [compareVersion_decompose, h]
  rfl

theorem isPreRelease_public_of (v : Version) (h : Version.IsPreRelease v = true) :
    Version.IsPreRelease (public v) = true := by
  simp only [Version.IsPreRelease, public, Bool.and_eq_true, Bool.not_eq_true'] at h ⊢
  simp [h.2]

/-! ## Claim theorems -/

/-- C8: the comparator is a strict total order on versions — for any two
versions exactly one of LessThan, Equal, GreaterThan holds, LessThan is
transitive, and the relational predicates GreaterThan, LessThanOrEqual and
GreaterThanOrEqual are all consistent with the single comparator that also
defines LessThan and Equal. -/
theorem c8_comparator_total_order :
    (∀ a b : Version,
      (Version.LessThan a b = true ∧ Version.Equal a b = false ∧ Version.GreaterThan a b = false) ∨
      (Version.LessThan a b = false ∧ Version.Equal a b = true ∧ Version.GreaterThan a b = false) ∨
      (Version.LessThan a b = false ∧ Version.Equal a b = false ∧ Version.GreaterThan a b = true)) ∧
    (∀ a b c : Version,
      Version.LessThan a b = true → Version.LessThan b c = true → Version.LessThan a c = true) ∧
    (∀ a b : Version, Version.GreaterThan a b = Version.LessThan b a) ∧
    (∀ a b : Version,
      Version.LessThanOrEqual a b = (Version.LessThan a b || Version.Equal a b)) ∧
    (∀ a b : Version,
      Version.GreaterThanOrEqual a b = (Version.GreaterThan a b || Version.Equal a b)) := by
  refine ⟨?_, ?_, ?_, ?_, ?_⟩
  · intro a b
    cases h : compareVersion a b
    · exact Or.inl ⟨by simp [Version.LessThan, h], by simp [Version.Equal, h],
        by simp [Version.GreaterThan, h]⟩
    · exact Or.inr (Or.inl ⟨by simp [Version.LessThan, h], by simp [Version.Equal, h],
        by simp [Version.GreaterThan, h]⟩)
    · exact Or.inr (Or.inr ⟨by simp [Version.LessThan, h], by simp [Version.Equal, h],
        by simp [Version.GreaterThan, h]⟩)
  · intro a b c h1 h2
    simp only [Version.LessThan, decide_eq_true_eq] at h1 h2 ⊢
    exact TransCmp.lt_trans h1 h2
  · intro a b
    simp only [Version.GreaterThan, Version.LessThan, decide_eq_decide]
    exact @OrientedCmp.cmp_eq_gt _ compareVersion _ _ _
  · intro a b
    cases h : compareVersion a b <;>
      simp [Version.LessThanOrEqual, Version.LessThan, Version.Equal, h]
  · intro a b
    cases h : compareVersion a b <;>
      simp [Version.GreaterThanOrEqual, Version.GreaterThan, Version.Equal, h]

/-- Witness for C8: transitivity applied at three concretely parsed
versions. -/
theorem c8_comparator_total_order_witness :
    Version.LessThan (MustParse "1.0") (MustParse "2.5.dev1") = true :=
  c8_comparator_total_order.2.1 (MustParse "1.0") (MustParse "1.5.post2") (MustParse "2.5.dev1")
    (by decide) (by decide)

/-- C4: Check first marks the candidate copy when the configuration asks
for pre-releases to be included, then accepts exactly when some OR group
has all of its clauses satisfied. -/
theorem c4_check_or_and :
    ∀ (ss : Specifiers) (v : Version),
      Specifiers.Check ss v = true ↔
        ∃ group ∈ ss.specifiers, ∀ s ∈ group,
          Specifier.check s
            (if ss.conf.includePreRelease then { v with preReleaseIncluded := true } else v) =
            true := by
  intro ss v
  simp [Specifiers.Check, andCheck, List.any_eq_true, List.all_eq_true, Specifier.check]

/-- Witness for C4: the equivalence applied to a concrete one-clause
constraint set and candidate. -/
theorem c4_check_or_and_witness :
    Specifiers.Check ⟨[[⟨"1.0", specifierGreaterThanEqual, ">=1.0", false⟩]], {}⟩
      (MustParse "1.2") = true :=
  (c4_check_or_and ⟨[[⟨"1.0", specifierGreaterThanEqual, ">=1.0", false⟩]], {}⟩
      (MustParse "1.2")).mpr
    ⟨[⟨"1.0", specifierGreaterThanEqual, ">=1.0", false⟩], by simp, by
      intro s hs
      rw [List.mem_singleton] at hs
      subst hs
      decide⟩

/-- C10: the Go call passes the receiver and the candidate by value, so
Check leaves the caller's version unchanged, its result is the pure
function of the constraint set and the version value, and calling again
with the caller's variable yields the same result. -/
theorem c10_check_no_mutation :
    ∀ (ss : Specifiers) (v : Version),
      (CheckCall ss v).2 = v ∧
      (CheckCall ss v).1 = Specifiers.Check ss v ∧
      CheckCall ss ((CheckCall ss v).2) = CheckCall ss v := by
  intro ss v
  exact ⟨rfl, rfl, rfl⟩

theorem specifierLessThan_characterization (v sv : Version) (spec : String) (allow : Bool)
    (hp : parseVersion spec = some sv) :
    specifierLessThan v spec allow =
      (Version.LessThan (if !allow && !v.«local».isEmpty then public v else v) sv &&
       !(!(Version.IsPreRelease sv) &&
         Version.IsPreRelease (if !allow && !v.«local».isEmpty then public v else v) &&
         Version.Equal (base (if !allow && !v.«local».isEmpty then public v else v)) (base sv))) := by
  unfold specifierLessThan
  rw [hp]
  set p := if !allow && !v.«local».isEmpty then public v else v with hpdef
  cases hlt : Version.LessThan p sv <;>
    cases hps : Version.IsPreRelease sv <;>
      cases hpv : Version.IsPreRelease p <;>
        cases heq : Version.Equal (base p) (base sv) <;>
          simp [hlt, hps, hpv, heq]

theorem specifierGreaterThan_characterization (v sv : Version) (spec : String) (allow : Bool)
    (hp : parseVersion spec = some sv) :
    specifierGreaterThan v spec allow =
      (Version.GreaterThan v sv &&
       !(!(Version.IsPostRelease sv) && Version.IsPostRelease v &&
         Version.Equal (base v) (base sv)) &&
       !((!allow && !v.«local».isEmpty) && Version.Equal (base v) (base sv))) := by
  unfold specifierGreaterThan
  rw [hp]
  cases hgt : Version.GreaterThan v sv <;>
    cases hps : Version.IsPostRelease sv <;>
      cases hpv : Version.IsPostRelease v <;>
        cases heq : Version.Equal (base v) (base sv) <;>
          cases hal : allow <;>
            cases hle : v.«local».isEmpty <;>
              simp [hgt, hps, hpv, heq, hal, hle]

/-- C2: the less-than predicate accepts only candidates strictly below the
operand (for the operand shapes that construction can produce: any operand
when the local option is on, local-free operands otherwise), rejects every
pre-release candidate sharing the operand's base version when the operand
is no pre-release itself, and on the spec's concrete examples the check of
3.1.dev0 against the bound 3.1 fails while 3.0.dev0 passes. -/
theorem c2_specifier_less_than :
    (∀ (v : Version) (spec : String) (allow : Bool) (sv : Version),
        parseVersion spec = some sv → (allow = true ∨ sv.«local» = []) →
        specifierLessThan v spec allow = true → Version.LessThan v sv = true) ∧
    (∀ (v : Version) (spec : String) (allow : Bool) (sv : Version),
        parseVersion spec = some sv →
        Version.IsPreRelease sv = false → Version.IsPreRelease v = true →
        Version.Equal (base v) (base sv) = true →
        specifierLessThan v spec allow = false) ∧
    Specifiers.Check ⟨[[⟨"3.1", specifierLessThan, "<3.1", false⟩]], {}⟩
      (MustParse "3.1.dev0") = false ∧
    Specifiers.Check ⟨[[⟨"3.1", specifierLessThan, "<3.1", false⟩]], {}⟩
      (MustParse "3.0.dev0") = true ∧
    (parseVersion "3.1.dev0").isSome = true ∧ (parseVersion "3.0.dev0").isSome = true := by
  refine ⟨?_, ?_, by decide, by decide, by decide, by decide⟩
  · intro v spec allow sv hp hl ht
    rw [specifierLessThan_characterization v sv spec allow hp, Bool.and_eq_true] at ht
    by_cases hc : (!allow && !v.«local».isEmpty) = true
    · rw [if_pos hc] at ht
      rcases hl with h1 | h1
      · rw [h1] at hc
        simp at hc
      · exact lessThan_public_of_operand_no_local v sv h1 ht.1
    · rw [if_neg hc] at ht
      exact ht.1
  · intro v spec allow sv hp hps hpv heq
    rw [specifierLessThan_characterization v sv spec allow hp]
    by_cases hc : (!allow && !v.«local».isEmpty) = true
    · rw [if_pos hc]
      rw [hps, isPreRelease_public_of v hpv, base_public, heq]
      simp
    · rw [if_neg hc]
      rw [hps, hpv, heq]
      simp

/-- Witness for C2: both universally quantified parts applied at concretely
parsed inputs. -/
theorem c2_specifier_less_than_witness :
    Version.LessThan (MustParse "1.2") (MustParse "2.0") = true ∧
    specifierLessThan (MustParse "2.0a1") "2" false = false :=
  ⟨c2_specifier_less_than.1 (MustParse "1.2") "2.0" false (MustParse "2.0") (by decide)
      (Or.inr (by decide)) (by decide),
    c2_specifier_less_than.2.1 (MustParse "2.0a1") "2" false (MustParse "2") (by decide)
      (by decide) (by decide) (by decide)⟩

/-- C3: the greater-than predicate accepts only candidates strictly above
the operand, rejects every post-release candidate sharing the operand's
base version when the operand is no post-release itself, rejects every
local-carrying candidate sharing the operand's base version when the local
option is off, and on the spec's concrete examples the check of 3.0.post0
against the bound 3.1 fails while 3.2.post0 passes. -/
theorem c3_specifier_greater_than :
    (∀ (v : Version) (spec : String) (allow : Bool) (sv : Version),
        parseVersion spec = some sv →
        specifierGreaterThan v spec allow = true → Version.GreaterThan v sv = true) ∧
    (∀ (v : Version) (spec : String) (allow : Bool) (sv : Version),
        parseVersion spec = some sv →
        Version.IsPostRelease sv = false → Version.IsPostRelease v = true →
        Version.Equal (base v) (base sv) = true →
        specifierGreaterThan v spec allow = false) ∧
    (∀ (v : Version) (spec : String) (sv : Version),
        parseVersion spec = some sv →
        v.«local» ≠ [] → Version.Equal (base v) (base sv) = true →
        specifierGreaterThan v spec false = false) ∧
    Specifiers.Check ⟨[[⟨"3.1", specifierGreaterThan, ">3.1", false⟩]], {}⟩
      (MustParse "3.0.post0") = false ∧
    Specifiers.Check ⟨[[⟨"3.1", specifierGreaterThan, ">3.1", false⟩]], {}⟩
      (MustParse "3.2.post0") = true ∧
    (parseVersion "3.0.post0").isSome = true ∧ (parseVersion "3.2.post0").isSome = true := by
  refine ⟨?_, ?_, ?_, by decide, by decide, by decide, by decide⟩
  · intro v spec allow sv hp ht
    rw [specifierGreaterThan_characterization v sv spec allow hp] at ht
    simp only [Bool.and_eq_true] at ht
    exact ht.1.1
  · intro v spec allow sv hp hps hpv heq
    rw [specifierGreaterThan_characterization v sv spec allow hp]
    rw [hps, hpv, heq]
    simp
  · intro v spec sv hp hloc heq
    rw [specifierGreaterThan_characterization v sv spec false hp]
    have hl : v.«local».isEmpty = false := by
      cases h : v.«local» with
      | nil => exact absurd h hloc
      | cons a l => simp [h]
    rw [heq, hl]
    simp

/-- Witness for C3: the three universally quantified parts applied at
concretely parsed inputs. -/
theorem c3_specifier_greater_than_witness :
    Version.GreaterThan (MustParse "2.5") (MustParse "2.0") = true ∧
    specifierGreaterThan (MustParse "2.0.post1") "2" false = false ∧
    specifierGreaterThan (MustParse "2.0+local.version") "2" false = false :=
  ⟨c3_specifier_greater_than.1 (MustParse "2.5") "2.0" false (MustParse "2.0") (by decide)
      (by decide),
    c3_specifier_greater_than.2.1 (MustParse "2.0.post1") "2" false (MustParse "2") (by decide)
      (by decide) (by decide) (by decide),
    c3_specifier_greater_than.2.2.1 (MustParse "2.0+local.version") "2" (MustParse "2") (by decide)
      (by decide) (by decide)⟩

theorem equal_false_of_local_ne (a b : Version) (h : a.«local» ≠ b.«local») :
    Version.Equal a b = false := by
  simp only [Version.Equal, decide_eq_false_iff_not]
  intro hc
  rw [compareVersion_decompose, Ordering.then_eq_eq] at hc
  exact h ((localCmp_eq_iff _ _).1 hc.2)

theorem specifierEqual_nonwild (v sv : Version) (spec : String) (allow : Bool)
    (hw : strEndsWith spec ".*" = false) (hp : parseVersion spec = some sv) :
    specifierEqual v spec allow =
      Version.Equal sv (if !allow && sv.«local».isEmpty then public v else v) := by
  unfold specifierEqual
  rw [hw, hp]
  simp

/-- C6: for a non-wildcard equality operand without a local segment and
with the local option off, the candidate's local segment is irrelevant (it
is stripped before comparing), so 1.0.0+local matches the bound 1.0.0;
when the operand carries a local segment or the local option is on, local
segments are compared strictly and any difference refutes the equality. -/
theorem c6_equality_local_policy :
    (∀ (v sv : Version) (spec : String) (l : List LocalSeg),
        parseVersion spec = some sv → strEndsWith spec ".*" = false → sv.«local» = [] →
        specifierEqual v spec false = specifierEqual { v with «local» := l } spec false) ∧
    (∀ (v sv : Version) (spec : String) (allow : Bool),
        parseVersion spec = some sv → strEndsWith spec ".*" = false →
        (allow = true ∨ sv.«local» ≠ []) → v.«local» ≠ sv.«local» →
        specifierEqual v spec allow = false) ∧
    Specifiers.Check ⟨[[⟨"1.0.0", specifierEqual, "==1.0.0", false⟩]], {}⟩
      (MustParse "1.0.0+local") = true ∧
    specifierEqual (MustParse "1.0.0+local") "1.0.0+local2" true = false ∧
    (parseVersion "1.0.0+local").isSome = true ∧
    (parseVersion "1.0.0+local2").isSome = true := by
  refine ⟨?_, ?_, by decide, by decide, by decide, by decide⟩
  · intro v sv spec l hp hw hl
    rw [specifierEqual_nonwild v sv spec false hw hp,
      specifierEqual_nonwild { v with «local» := l } sv spec false hw hp]
    rw [hl]
    rfl
  · intro v sv spec allow hp hw hcase hne
    rw [specifierEqual_nonwild v sv spec allow hw hp]
    have hcond : (!allow && sv.«local».isEmpty) = false := by
      rcases hcase with h | h
      · rw [h]
        rfl
      · cases hl : sv.«local» with
        | nil => exact absurd hl h
        | cons a t => simp [hl]
    rw [hcond]
    simp only [Bool.false_eq_true, if_false]
    exact equal_false_of_local_ne sv v (fun hc => hne (hc.symm))

/-- Witness for C6: both universally quantified parts applied at concretely
parsed inputs. -/
theorem c6_equality_local_policy_witness :
    specifierEqual (MustParse "2.0+deadbeef") "2.0" false =
      specifierEqual { MustParse "2.0+deadbeef" with «local» := [] } "2.0" false ∧
    specifierEqual (MustParse "2.0") "2.0+deadbeef" false = false :=
  ⟨c6_equality_local_policy.1 (MustParse "2.0+deadbeef") (MustParse "2.0") "2.0"
      [] (by decide) (by decide) (by decide),
    c6_equality_local_policy.2.1 (MustParse "2.0") (MustParse "2.0+deadbeef") "2.0+deadbeef"
      false (by decide) (by decide) (Or.inr (by decide)) (by decide)⟩

/-- C5: the compatible-release predicate is exactly the conjunction of the
greater-or-equal predicate on the operand and the equality predicate on
the wildcard prefix obtained from the operand's public token sequence by
dropping the tokens from the first post or dev token on and the last
remaining token, re-joined with dots and suffixed with the wildcard; the
spec's concrete compatible-release examples evaluate accordingly. -/
theorem c5_compatible_delegates :
    (∀ (v : Version) (spec : String) (allow : Bool) (sv : Version),
        parseVersion spec = some sv →
        specifierCompatible v spec allow =
          (specifierGreaterThanEqual v spec allow &&
           specifierEqual v
             (String.mk (joinChars '.'
               ((((versionSplit (Version.Public sv)).takeWhile
                   (fun s => !(strStartsWith s "post" || strStartsWith s "dev"))).dropLast).map
                 String.data)) ++ ".*")
             allow)) ∧
    specifierCompatible (MustParse "1.9999999") "1.0" false = true ∧
    specifierCompatible (MustParse "2.0") "1.0" false = false ∧
    specifierCompatible (MustParse "2!1.0") "2!1.0" false = true := by
  refine ⟨?_, by decide, by decide, by decide⟩
  intro v spec allow sv hp
  unfold specifierCompatible
  rw [hp]

/-- Witness for C5: the delegation identity applied at a concretely parsed
operand. -/
theorem c5_compatible_delegates_witness :
    specifierCompatible (MustParse "1.0.1") "1.0" false =
      (specifierGreaterThanEqual (MustParse "1.0.1") "1.0" false &&
       specifierEqual (MustParse "1.0.1")
         (String.mk (joinChars '.'
           ((((versionSplit (Version.Public (MustParse "1.0"))).takeWhile
               (fun s => !(strStartsWith s "post" || strStartsWith s "dev"))).dropLast).map
             String.data)) ++ ".*")
         false) :=
  c5_compatible_delegates.1 (MustParse "1.0.1") "1.0" false (MustParse "1.0") (by decide)

/-- C9: the two slice expressions inside padVersion stay in bounds for the
token lists produced by the wildcard branch of specifierEqual (and hence
for the calls the compatible operator makes through it): the candidate
list is truncated to the operand list's length first, and a filtered
list is never longer than its source. -/
theorem c9_padVersion_slices_in_bounds :
    ∀ (v : Version) (spec : String),
      padVersionInBounds (versionSplit (trimSuffix spec ".*"))
        (if (versionSplit (verString (public v))).length >
              (versionSplit (trimSuffix spec ".*")).length
         then (versionSplit (verString (public v))).take
                (versionSplit (trimSuffix spec ".*")).length
         else versionSplit (verString (public v))) := by
  intro v spec
  constructor
  · exact List.length_filter_le _ _
  · have h1 :
        (if (versionSplit (verString (public v))).length >
              (versionSplit (trimSuffix spec ".*")).length
         then (versionSplit (verString (public v))).take
                (versionSplit (trimSuffix spec ".*")).length
         else versionSplit (verString (public v))).length ≤
          (versionSplit (trimSuffix spec ".*")).length := by
      split
      · simp [List.length_take]
      · omega
    exact le_trans (List.length_filter_le _ _) h1

theorem validate_isSome_iff : ∀ (op version : String) (c : Conf),
    (op = "" ∨ op = "=" ∨ op = "==" ∨ op = "!=" ∨ op = ">" ∨ op = "<" ∨ op = ">=" ∨
     op = "<=" ∨ op = "~=") →
    (validate op version c).isSome = specViolation op version c := by
  intro op version c h
  unfold validate specViolation
  rcases h with rfl | rfl | rfl | rfl | rfl | rfl | rfl | rfl | rfl <;>
    cases hw : strEndsWith version ".*" <;> simp only [hw] <;> simp <;>
      cases hp : parseVersion (trimSuffix version ".*") <;>
        cases hp2 : parseVersion version <;>
          simp_all <;> split_ifs <;> simp_all

theorem optionMapM_eq_none (f : α → Option β) :
    ∀ l : List α, l.mapM f = none ↔ ∃ x ∈ l, f x = none := by
  intro l
  induction l with
  | nil =>
    constructor
    · intro hx
      cases hx
    · rintro ⟨x, hx1, _⟩
      cases hx1
  | cons a t ih =>
    have hshape : (a :: t).mapM f =
        (f a).bind (fun x => (t.mapM f).bind (fun xs => some (x :: xs))) := by
      rw [List.mapM_cons]
      rfl
    rw [hshape]
    cases hf : f a with
    | none =>
      simp only [Option.none_bind]
      constructor
      · intro _
        exact ⟨a, List.mem_cons_self a t, hf⟩
      · intro _
        trivial
    | some b =>
      simp only [Option.some_bind]
      cases ht : t.mapM f with
      | none =>
        simp only [Option.none_bind]
        constructor
        · intro _
          rcases ih.1 ht with ⟨x, hx1, hx2⟩
          exact ⟨x, List.mem_cons_of_mem a hx1, hx2⟩
        · intro _
          trivial
      | some xs =>
        simp only [Option.some_bind]
        constructor
        · intro hx
          cases hx
        · rintro ⟨x, hx1, hx2⟩
          rcases List.mem_cons.1 hx1 with h1 | h1
          · rw [h1] at hx2
            rw [hx2] at hf
            cases hf
          · have hmem := ih.2 ⟨x, h1, hx2⟩
            rw [ht] at hmem
            cases hmem

/-- C7: a clause (operator, operand) of one of the nine validated
operators fails construction exactly when it violates a validation rule of
the claim's enumeration — wildcard with dev or local under the
(non)equality operators, any wildcard under the compatible and ordered
operators, a compatible operand with fewer than two release components, a
local operand under the compatible and ordered operators without the local
option, or an operand (minus a trailing wildcard) that does not parse —
and one failing clause fails the whole construction. -/
theorem c7_construction_validation :
    (∀ (op version : String) (c : Conf),
        (op = "" ∨ op = "=" ∨ op = "==" ∨ op = "!=" ∨ op = ">" ∨ op = "<" ∨ op = ">=" ∨
         op = "<=" ∨ op = "~=") →
        ((newSpecifier op version c).isNone = true ↔ specViolation op version c = true)) ∧
    (∀ (groups : List (List (String × String))) (c : Conf),
        newSpecifiers groups c = none ↔ ∃ g ∈ groups, ∃ cl ∈ g, newSpecifier cl.1 cl.2 c = none) := by
  constructor
  · intro op version c h
    have hv := validate_isSome_iff op version c h
    have hne : op ≠ "===" := by
      rcases h with rfl | rfl | rfl | rfl | rfl | rfl | rfl | rfl | rfl <;> decide
    have hop : ∃ f, specifierOperators op = some f := by
      rcases h with rfl | rfl | rfl | rfl | rfl | rfl | rfl | rfl | rfl <;>
        exact ⟨_, rfl⟩
    rcases hop with ⟨f, hop⟩
    rw [← hv]
    unfold newSpecifier
    rw [hop]
    cases hval : validate op version c <;> simp [hval, hne]
  · intro groups c
    unfold newSpecifiers
    cases hm : groups.mapM (fun g => g.mapM (fun cl => newSpecifier cl.1 cl.2 c)) with
    | none =>
      simp only [true_iff]
      have := (optionMapM_eq_none _ groups).1 hm
      rcases this with ⟨g, hg, hgnone⟩
      exact ⟨g, hg, (optionMapM_eq_none _ g).1 hgnone⟩
    | some sss =>
      constructor
      · intro hx
        cases hx
      · intro hx
        rcases hx with ⟨g, hg, cl, hcl, hnone⟩
        have hcontra :
            groups.mapM (fun g => g.mapM (fun cl => newSpecifier cl.1 cl.2 c)) = none :=
          (optionMapM_eq_none _ groups).2
            ⟨g, hg, (optionMapM_eq_none _ g).2 ⟨cl, hcl, hnone⟩⟩
        rw [hm] at hcontra
        cases hcontra

/-- Witness for C7: the clause-level equivalence and the propagation both
applied at the concrete invalid compatible clause with a one-digit
release. -/
theorem c7_construction_validation_witness :
    (newSpecifier "~=" "1" {}).isNone = true ∧
    newSpecifiers [[("~=", "1")]] {} = none :=
  ⟨(c7_construction_validation.1 "~=" "1" {} (by decide)).mpr (by decide),
   (c7_construction_validation.2 [[("~=", "1")]] {}).mpr
     ⟨[("~=", "1")], by simp, ("~=", "1"), by simp, by rfl⟩⟩

/-- C1: at the validated wildcard clause with operand 2.0a1.* and the
candidate 2.0b1, the code's wildcard match returns true because padVersion
slices the right-hand rest from the left token list, so the operand's own
pre-release token is compared with itself, while the padding that keeps
each side's own non-numeric suffix yields false. -/
theorem c1_padVersion_left_slice :
    validate "==" "2.0a1.*" {} = none ∧
    (parseVersion "2.0b1").isSome = true ∧
    specifierEqual (MustParse "2.0b1") "2.0a1.*" false = true ∧
    specifierEqualEachSide (MustParse "2.0b1") "2.0a1.*" false = false ∧
    padVersion ["2", "0", "a1"] ["2", "0", "b1"] = (["2", "0", "a1"], ["2", "0", "a1"]) ∧
    padVersionEachSide ["2", "0", "a1"] ["2", "0", "b1"] =
      (["2", "0", "a1"], ["2", "0", "b1"]) :=
  ⟨by decide, by decide, by decide, by decide, by decide, by decide⟩
